import Mathlib

/-!
# Verification of the DesiGators sensor-array core

Shallow embedding of `src/components/load_cell.py` (mass-sensor calibration,
outlier-trimmed measurement, 4x2 array topology, calibration-state
persistence) and of `MeasurementCoordinator.run` in `src/gui.py` (the
periodic sampling loop).

Modelling conventions:
* Python numbers (ints and floats) are modelled as exact integers/rationals
  (`Int`/`ℚ`); the spec describes exact arithmetic and all counterexamples
  below are robust to binary floating-point rounding.
* Python strings are modelled as `List Char`.
* Python exceptions are modelled with `Option`/`Except`: a raised exception
  is `none`/`.error`.
* Python's `str()`/`int()`/`float()` printing and parsing of numbers (used
  by `save_array`/`load_array`) is abstracted as a codec parameter: any
  printer/parser pair that round-trips, never emits the delimiters `,`/`|`,
  and never prints a number as the four characters `None` (all true of
  CPython's `repr`) is admissible.
-/

namespace DesiGators

/-- Python `list.insert(i, x)` for a non-negative index `i`: inserts `x`
before position `i`; an index past the end appends (this differs from
Lean's `List.insertIdx`, which drops the element in that case). -/
def pyInsert {α : Type} (i : Nat) (a : α) (l : List α) : List α :=
  l.take i ++ a :: l.drop i

/-- Python `str.split(d)` for a one-character separator `d`:
`"a|b|".split('|') == ["a", "b", ""]` and `"".split('|') == [""]`. -/
def splitChar (d : Char) : List Char → List (List Char)
  | [] => [[]]
  | c :: cs =>
    let r := splitChar d cs
    if c = d then [] :: r else (c :: r.headD []) :: r.tail

/-- Insert a value into an already-sorted list (ascending). -/
def insertSorted (x : ℚ) : List ℚ → List ℚ
  | [] => [x]
  | y :: ys => if x ≤ y then x :: y :: ys else y :: insertSorted x ys

/-- Ascending insertion sort; stands in for numpy's internal sort in
`np.quantile` (only the sorted order matters there). -/
def sortQ (l : List ℚ) : List ℚ :=
  l.foldr insertSorted []

/-- Model of `np.quantile(l, q)` with the default linear-interpolation method
(numpy's documented behaviour): on the ascending sort `s` of `l`, with
`h = q*(len(l)-1)`, returns `s[⌊h⌋] + (h-⌊h⌋)*(s[⌊h⌋+1] - s[⌊h⌋])`
(and just `s[⌊h⌋]` when `h` is integral, since the fraction is zero).
External library function, modelled from numpy's documentation; meaningful
for nonempty `l` and `0 ≤ q ≤ 1`. -/
def quantile (l : List ℚ) (q : ℚ) : ℚ :=
  let s := sortQ l
  let h := q * ((s.length : ℚ) - 1)
  let lo := (⌊h⌋).toNat
  let frac := h - ((⌊h⌋ : ℤ) : ℚ)
  let a := s.getD lo 0
  let b := s.getD (lo + 1) a
  a + frac * (b - a)

/-- The boolean-mask filter of `LoadCell.take_measurement` (line 43):
`readings[(readings > quantile(readings, 0.1)) & (readings < quantile(readings, 0.9))]`
— the samples kept are those *strictly* between the two percentiles, in
their original batch order. -/
def trimmedBatch (readings : List ℚ) : List ℚ :=
  readings.filter fun x =>
    decide (quantile readings (1 / 10) < x) && decide (x < quantile readings (9 / 10))

/-- Embedding of `LoadCell.take_measurement` (components/load_cell.py, lines 39-46):
pulls a batch of raw samples (`get_raw_data(10)`; the hardware may deliver
fewer, so the batch is a parameter), keeps the samples strictly between the
10th and 90th percentile of the batch, and returns their arithmetic mean.
An empty batch makes `np.quantile` raise, and an empty trimmed batch makes
`sum(readings)/len(readings)` raise `ZeroDivisionError`; both failures are
modelled as `none`. -/
def take_measurement (readings : List ℚ) : Option ℚ :=
  if readings.isEmpty then none
  else
    let kept := trimmedBatch readings
    if kept.isEmpty then none
    else some (kept.sum / (kept.length : ℚ))

/-- The computation the spec sentence of claim C3 describes, taken at its
word: exclude exactly the values strictly below the 10th percentile or
strictly above the 90th, then average "the remaining values" (so values
equal to either percentile remain).  Spec-side definition, for comparison
with `take_measurement`. -/
def specTrimmedMean (readings : List ℚ) : ℚ :=
  let q10 := quantile readings (1 / 10)
  let q90 := quantile readings (9 / 10)
  let kept := readings.filter fun x => decide (q10 ≤ x) && decide (x ≤ q90)
  kept.sum / (kept.length : ℚ)

/-- The two `ValueError`s `LoadCell.__init__` can raise (spec name:
`InvalidTopology`). -/
inductive InitError
  | invalidChamber
  | invalidSide
deriving DecidableEq

/-- Failures of the measurement path.  `calibrationMissing` is the spec's
name for the `TypeError` raised by `None * float` in `get_mass`;
`degenerateBatch` is the `ZeroDivisionError`/numpy error propagating out of
`take_measurement`. -/
inductive MassError
  | calibrationMissing
  | degenerateBatch
deriving DecidableEq

/-- State of one `LoadCell` (components/load_cell.py).  `id` is not a
field: the source stores `id = str(chamber) + str(side).upper()`, which is
recomputable from `chamber` and `side` (see `LoadCell.idStr`).  `offset`
is the attribute written by `tare` (absent until the first `tare`). -/
structure LoadCell where
  data_pin : Int
  clock_pin : Int
  gain : Int
  channel : List Char
  chamber : Int
  side : Char
  m : Option ℚ
  b : Option ℚ
  offset : Option ℚ
deriving DecidableEq

/-- Embedding of `LoadCell.__init__` (lines 14-31): rejects `chamber ∉ [1,2,3,4]` and
`str(side).upper() ∉ ['L','R']` with `ValueError`; stores the upper-cased
side (via `id`).  `m`/`b` (slope/intercept) default to `None` in the
source; here they are explicit arguments. -/
def mkLoadCell (data_pin clock_pin gain : Int) (channel : List Char)
    (chamber : Int) (side : Char) (m b : Option ℚ) : Except InitError LoadCell :=
  if chamber ∈ ([1, 2, 3, 4] : List Int) then
    if side.toUpper ∈ (['L', 'R'] : List Char) then
      .ok { data_pin, clock_pin, gain, channel, chamber,
            side := side.toUpper, m, b, offset := none }
    else .error .invalidSide
  else .error .invalidChamber

/-- The source's `self.id` string: chamber digit followed by the
(upper-cased) side letter.  Exact for the constructor-enforced domain
`chamber ∈ {1,2,3,4}` (single decimal digit). -/
def LoadCell.idStr (c : LoadCell) : List Char :=
  [Char.ofNat (48 + c.chamber.toNat), c.side]

/-- Embedding of `LoadCell.tare` (lines 33-37): pulls `sample_size` raw samples and
stores their untrimmed mean in `self.offset`.  An empty sample list would
raise `ZeroDivisionError` (`none`).  No other attribute is touched. -/
def tare (c : LoadCell) (readings : List ℚ) : Option LoadCell :=
  if readings.isEmpty then none
  else some { c with offset := some (readings.sum / (readings.length : ℚ)) }

/-- Embedding of `LoadCell.get_mass` (lines 48-51): first runs `take_measurement`
(whose exception, if any, propagates), then computes
`self.m * measurement + self.b`; with `m` or `b` still `None` this raises
`TypeError` (spec name: `CalibrationMissing`). -/
def get_mass (c : LoadCell) (batch : List ℚ) : Except MassError ℚ :=
  match take_measurement batch with
  | none => .error .degenerateBatch
  | some meas =>
    match c.m, c.b with
    | some mv, some bv => .ok (mv * meas + bv)
    | _, _ => .error .calibrationMissing

/-- State of a `LoadCellArray`: `cells` is the list `[[],[],[],[]]` of four
chamber lists; `num_cells` the cell counter. -/
structure LoadCellArray where
  cells : List (List LoadCell)
  num_cells : Nat
deriving DecidableEq

/-- Result of `LoadCellArray.__init__` with `cells=None`. -/
def emptyArray : LoadCellArray :=
  { cells := [[], [], [], []], num_cells := 0 }

/-- Chamber-list index `int(cell.id[0]) - 1` (the id's first character is
the chamber digit). -/
def chIdx (c : LoadCell) : Nat :=
  (c.chamber - 1).toNat

/-- Side index: `0` for `'L'`, else `1` (source: `if id[1] == 'L'`). -/
def sideIdx (s : Char) : Nat :=
  if s = 'L' then 0 else 1

/-- The list-mutation `self.cells[ch].insert(idx, cell)` shared by
`LoadCellArray.__init__` and `load_array`. -/
def placeCell (arr : LoadCellArray) (idx : Nat) (ch : Nat) (c : LoadCell) :
    LoadCellArray :=
  { arr with cells := arr.cells.set ch (pyInsert idx c (arr.cells.getD ch [])) }

/-- One step of the `LoadCellArray.__init__` loop (lines 98-107): place the
cell by its id and bump `num_cells`.  There is no occupancy check in the
source. -/
def insertCell (arr : LoadCellArray) (c : LoadCell) : LoadCellArray :=
  { placeCell arr (sideIdx c.side) (chIdx c) c with
    num_cells := arr.num_cells + 1 }

/-- Result of `LoadCellArray.__init__` with a list of constructed cells. -/
def arrayInit (cs : List LoadCell) : LoadCellArray :=
  cs.foldl insertCell emptyArray

/-- The `data.append(cell.get_mass())` loop of
`LoadCellArray.take_measurement`: measure the cells in list order; the
first exception aborts the loop and propagates (no partial list). -/
def massList (env : LoadCell → List ℚ) : List LoadCell → Except MassError (List ℚ)
  | [] => .ok []
  | c :: cs =>
    match get_mass c (env c) with
    | .error e => .error e
    | .ok v =>
      match massList env cs with
      | .error e => .error e
      | .ok vs => .ok (v :: vs)

/-- Embedding of `LoadCellArray.take_measurement` (lines 155-165): iterate the chamber
lists in order — i.e. the flattened grid — calling `get_mass` on every
populated slot.  `env` assigns each cell the raw batch its hardware would
deliver for this call. -/
def array_take_measurement (env : LoadCell → List ℚ) (arr : LoadCellArray) :
    Except MassError (List ℚ) :=
  massList env arr.cells.flatten

/-- A printer/parser pair standing in for Python's `str(float)` /
`float(str)` used on the calibration coefficients. -/
structure QCodec where
  print : ℚ → List Char
  parse : List Char → Option ℚ

/-- A printer/parser pair standing in for Python's `str(int)` / `int(str)`
used on the pin and gain fields. -/
structure IntCodec where
  print : Int → List Char
  parse : List Char → Option Int

/-- The four characters Python prints for `None`. -/
def noneChars : List Char :=
  ['N', 'o', 'n', 'e']

/-- The properties of CPython's float printing that `save_array` /
`load_array` rely on: parsing a printed value gives it back (`repr`
round-trip), a printed value contains neither of the file delimiters,
and no number prints as the token `None`. -/
structure QCodec.Good (qc : QCodec) : Prop where
  round : ∀ q, qc.parse (qc.print q) = some q
  clean : ∀ q d, d ∈ qc.print q → d ≠ ',' ∧ d ≠ '|'
  not_none : ∀ q, qc.print q ≠ noneChars

/-- Same contract for integer printing (`int(str(n)) == n`, no delimiter
characters in a printed integer). -/
structure IntCodec.Good (ic : IntCodec) : Prop where
  round : ∀ n, ic.parse (ic.print n) = some n
  clean : ∀ n d, d ∈ ic.print n → d ≠ ',' ∧ d ≠ '|'

/-- Model of `str(cell.m)`: the coefficient, or the token `None` when unset. -/
def printOptQ (qc : QCodec) : Option ℚ → List Char
  | none => noneChars
  | some q => qc.print q

/-- One record of `save_array` (line 114) without its trailing `'|'`:
`data_pin , clock_pin , gain , channel , id , m , b`. -/
def cellRecord (qc : QCodec) (ic : IntCodec) (c : LoadCell) : List Char :=
  ic.print c.data_pin ++ [','] ++ ic.print c.clock_pin ++ [','] ++
    ic.print c.gain ++ [','] ++ c.channel ++ [','] ++ c.idStr ++ [','] ++
    printOptQ qc c.m ++ [','] ++ printOptQ qc c.b

/-- Embedding of `LoadCellArray.save_array` (lines 110-116): the content of the file — for
every populated slot in chamber order, the cell's record followed by
`'|'`. -/
def save_array (qc : QCodec) (ic : IntCodec) (arr : LoadCellArray) :
    List Char :=
  ((arr.cells.flatten).map fun c => cellRecord qc ic c ++ ['|']).flatten

/-- Python `int(s)` applied to a single character, as in
`int(cells[i][4][0])`: the digit's value, `ValueError` otherwise. -/
def digitVal (c : Char) : Option Int :=
  if c.isDigit then some ((c.toNat : Int) - 48) else none

/-- Lines 145-152: `float(field)` unless the field is the token `None`
(in which case the coefficient is `None`).  The outer `Option` is parse
failure, the inner one the coefficient itself. -/
def parseOptQ (qc : QCodec) (f : List Char) : Option (Option ℚ) :=
  if f = noneChars then some none else (qc.parse f).map some

/-- One iteration of the `load_array` parse loop (lines 132-153): split the
record on `','`, read the seven fields `[0]`-`[6]` (an out-of-range index
raises), reconstruct the `LoadCell` through its constructor, and insert it
at `cells[chamber-1]` position `0`/`1` by the raw side character.  Any
`ValueError`/`IndexError`, and a constructor rejection, is `none`.  (One
deliberate simplification: CPython evaluates `self.cells[chamber-1]`
before the constructor call, so a record with a digit outside `1..4`
would raise `IndexError` — or wrap around for `0` — before the
constructor's `ValueError`; here the constructor rejects first.  Both
orders fail on such records, and they agree on the constructor-validated
domain `1..4`, the only one a saved well-formed array produces.) -/
def loadStep (qc : QCodec) (ic : IntCodec) (arr : LoadCellArray)
    (rec : List Char) : Option LoadCellArray :=
  match splitChar ',' rec with
  | f0 :: f1 :: f2 :: f3 :: f4 :: f5 :: f6 :: _ => do
    let dp ← ic.parse f0
    let cp ← ic.parse f1
    let g ← ic.parse f2
    let ch0 ← f4.get? 0
    let chamber ← digitVal ch0
    let sd ← f4.get? 1
    let mv ← parseOptQ qc f5
    let bv ← parseOptQ qc f6
    let cell ← (mkLoadCell dp cp g f3 chamber sd mv bv).toOption
    some (placeCell arr (sideIdx sd) ((chamber - 1).toNat) cell)
  | _ => none

/-- The `for i in range(len(cells))` parse loop of `load_array`: process
the records left to right; the first failing record aborts the load. -/
def loadRecs (qc : QCodec) (ic : IntCodec) (arr : LoadCellArray) :
    List (List Char) → Option LoadCellArray
  | [] => some arr
  | r :: rs =>
    match loadStep qc ic arr r with
    | none => none
    | some arr2 => loadRecs qc ic arr2 rs

/-- Embedding of `LoadCellArray.load_array` (lines 118-153) run on the array `arr0` it
is called on (the GUI calls it on a freshly constructed array) with file
content `data`: split on `'|'`, drop the empty tail produced by the
trailing delimiter (`cells.pop(-1)`), set `num_cells` to the record count,
then parse and place each record in order.  `cells` is *not* reset first
(faithful to the source).  A record the parse loop chokes on aborts the
whole load (`none`). -/
def load_array (qc : QCodec) (ic : IntCodec) (arr0 : LoadCellArray)
    (data : List Char) : Option LoadCellArray :=
  let recs := (splitChar '|' data).dropLast
  loadRecs qc ic { arr0 with num_cells := recs.length } recs

/-- A single cell is well-placed for chamber `k`: its chamber field is `k`,
its side is an upper-case `'L'`/`'R'` (both constructor-enforced), and its
channel string is free of the two file delimiters (true of the hardware's
`'A'`/`'B'`; the spec makes delimiter-free fields a requirement of the
persistence format). -/
def cellOK (k : Int) (c : LoadCell) : Bool :=
  c.chamber = k && (c.side = 'L' || c.side = 'R') &&
    c.channel.all fun d => d ≠ ',' && d ≠ '|'

/-- A chamber list as `LoadCellArray.__init__` builds it from at most one
sensor per side: empty, one cell of either side, or left-then-right. -/
def chamberOK (k : Int) : List LoadCell → Bool
  | [] => true
  | [x] => cellOK k x
  | [x, y] => cellOK k x && cellOK k y && x.side = 'L' && y.side = 'R'
  | _ => false

/-- A well-formed array: the four chamber lists in order, each of a legal
shape, with `num_cells` matching the population. -/
def wellFormed (arr : LoadCellArray) : Bool :=
  match arr.cells with
  | [l1, l2, l3, l4] =>
    chamberOK 1 l1 && chamberOK 2 l2 && chamberOK 3 l3 && chamberOK 4 l4 &&
      arr.num_cells = l1.length + l2.length + l3.length + l4.length
  | _ => false

/-- Forget the (unpersisted) tare offset of a cell; `load_array` rebuilds
cells through the constructor, which leaves `offset` unset. -/
def stripTare (c : LoadCell) : LoadCell :=
  { c with offset := none }

/-- The array `load_array` is expected to reproduce: the same placement and
per-cell persisted fields, with every tare offset unset. -/
def stripArray (arr : LoadCellArray) : LoadCellArray :=
  { arr with cells := arr.cells.map (·.map stripTare) }

/-- What `loadStep` does with a record that parses back to exactly the
cell `c` (with its tare offset unset, as the constructor leaves it). -/
def loadPlace (arr : LoadCellArray) (c : LoadCell) : LoadCellArray :=
  placeCell arr (sideIdx c.side) ((c.chamber - 1).toNat) (stripTare c)

/-- The propositional content of `cellOK`, independent of the chamber
number: the constructor-enforced invariants plus delimiter-free channel. -/
def CellGood (c : LoadCell) : Prop :=
  c.chamber ∈ ([1, 2, 3, 4] : List Int) ∧ (c.side = 'L' ∨ c.side = 'R') ∧
    ∀ d ∈ c.channel, d ≠ ',' ∧ d ≠ '|'

/-- The strict "array order" on cells the spec demands of the measurement
vector: chamber ascending, and left before right inside a chamber. -/
def cellBefore (a c : LoadCell) : Prop :=
  a.chamber < c.chamber ∨ (a.chamber = c.chamber ∧ sideIdx a.side < sideIdx c.side)

/-- Per-iteration inputs of `MeasurementCoordinator.run` (gui.py, lines
110-132), indexed by the iteration counter: the `controls['measure']` flag
as read at the top of the iteration, the outcome of the two array reads
(`none` = the read raised), and the three `time()` samples of the
iteration (cycle start, mass timestamp, cycle stop). -/
structure CoordInput where
  flag : Nat → Bool
  envRead : Nat → Option (List (ℚ × ℚ))
  massRead : Nat → Option (List ℚ)
  startT : Nat → ℚ
  massT : Nat → ℚ
  stopT : Nat → ℚ

/-- Observable actions of one coordinator iteration, in program order. -/
inductive CoordEv
  | reportErr
  | envPub (e : List (ℚ × ℚ))
  | massPub (t : ℚ) (ms : List ℚ)
  | sleep (d : ℚ)
  | pulse
deriving DecidableEq

/-- How one iteration of the `while True` loop ends: `halt` (flag observed
false, `break`), `retry` (env read raised: `print(e); continue`), `crash`
(mass read raised; the exception is uncaught and kills the loop), or
`complete`. -/
inductive IterOut
  | halt
  | retry
  | complete
  | crash
deriving DecidableEq

/-- One iteration of `MeasurementCoordinator.run` (lines 111-132): check
the flag; read the environmental array (on failure report and `continue` —
nothing else happens); publish the env result; read the mass array (a
failure here is *outside* the `try` and propagates after the env result
was already published); prepend the timestamp and publish; sleep the
remainder of the interval if the cycle ran short; emit the read pulse. -/
def coordCycle (inp : CoordInput) (interval : ℚ) (n : Nat) :
    List CoordEv × IterOut :=
  if ¬ inp.flag n then ([], .halt)
  else
    match inp.envRead n with
    | none => ([.reportErr], .retry)
    | some e =>
      match inp.massRead n with
      | none => ([.envPub e], .crash)
      | some ms =>
        let elapsed := inp.stopT n - inp.startT n
        let pacing := if elapsed < interval then [CoordEv.sleep (interval - elapsed)] else []
        (.envPub e :: .massPub (inp.massT n) ms :: pacing ++ [CoordEv.pulse], .complete)

/-- Loop exit status for a fuel-bounded unfolding of the `while True`
loop. -/
inductive RunExit
  | stopped
  | crashed
  | fuelOut
deriving DecidableEq

/-- Embedding of `MeasurementCoordinator.run` as a fuel-bounded trace: concatenates the
iterations' events until the flag stops the loop, an uncaught exception
kills it, or the fuel runs out. -/
def coordRun (inp : CoordInput) (interval : ℚ) :
    Nat → Nat → List CoordEv × RunExit
  | 0, _ => ([], .fuelOut)
  | fuel + 1, n =>
    let (evs, out) := coordCycle inp interval n
    match out with
    | .halt => (evs, .stopped)
    | .crash => (evs, .crashed)
    | _ =>
      let (evs2, ex) := coordRun inp interval fuel (n + 1)
      (evs ++ evs2, ex)

/-- Does the event list publish an environment result? -/
def hasEnvPub (evs : List CoordEv) : Bool :=
  evs.any fun e => match e with
    | .envPub _ => true
    | _ => false

/-- Does the event list publish a mass result? -/
def hasMassPub (evs : List CoordEv) : Bool :=
  evs.any fun e => match e with
    | .massPub _ _ => true
    | _ => false

/-- Does the event list suspend the worker? -/
def hasSleep (evs : List CoordEv) : Bool :=
  evs.any fun e => match e with
    | .sleep _ => true
    | _ => false

/-! ### Concrete instances used by witnesses and counterexamples -/

/-- A concrete integer printer for instantiating `IntCodec.Good`: sign
followed by a tally of `'x'`s.  (The `Good` contract is all the round-trip
argument uses, so any provably good codec serves as the witness.) -/
def unaryIntPrint (n : Int) : List Char :=
  (if n < 0 then ['-'] else []) ++ List.replicate n.natAbs 'x'

/-- Inverse of `unaryIntPrint`. -/
def unaryIntParse (s : List Char) : Option Int :=
  if s.headD 'x' = '-' then
    if s.tail.all (fun c => decide (c = 'x')) then some (-(s.tail.length : Int))
    else none
  else
    if s.all (fun c => decide (c = 'x')) then some ((s.length : Nat) : Int)
    else none

/-- The tally-based `IntCodec`. -/
def unaryIC : IntCodec :=
  { print := unaryIntPrint, parse := unaryIntParse }

/-- A concrete rational printer: tally of the numerator, `'/'`, tally of
the denominator. -/
def unaryQPrint (q : ℚ) : List Char :=
  unaryIntPrint q.num ++ '/' :: List.replicate q.den 'x'

/-- Inverse of `unaryQPrint`. -/
def unaryQParse (s : List Char) : Option ℚ :=
  match splitChar '/' s with
  | [a, b] =>
    match unaryIntParse a with
    | none => none
    | some n =>
      if b.all (fun c => decide (c = 'x')) then some ((n : ℚ) / ((b.length : Nat) : ℚ))
      else none
  | _ => none

/-- The tally-based `QCodec`. -/
def unaryQC : QCodec :=
  { print := unaryQPrint, parse := unaryQParse }

/-- A calibrated sensor at (1,L): slope 3/2, intercept -7/4, tared once. -/
def cell1L : LoadCell :=
  { data_pin := 5, clock_pin := 6, gain := 128, channel := ['A'],
    chamber := 1, side := 'L', m := some (3 / 2), b := some (-(7 / 4)),
    offset := some 99 }

/-- An uncalibrated sensor at (1,R). -/
def cell1R : LoadCell :=
  { data_pin := 7, clock_pin := 8, gain := 128, channel := ['A'],
    chamber := 1, side := 'R', m := none, b := none, offset := none }

/-- A half-calibrated sensor at (3,R): slope set, intercept unset. -/
def cell3R : LoadCell :=
  { data_pin := 9, clock_pin := 10, gain := 64, channel := ['B'],
    chamber := 3, side := 'R', m := some 2, b := none, offset := none }

/-- The spec's round-trip example array: sensors at (1,L), (1,R), (3,R)
with a mix of set and unset calibration coefficients. -/
def exampleArray : LoadCellArray :=
  arrayInit [cell1L, cell1R, cell3R]

/-- A fully calibrated sensor (slope 2, intercept 3) for the measurement
witnesses. -/
def cellCal : LoadCell :=
  { data_pin := 5, clock_pin := 6, gain := 128, channel := ['A'],
    chamber := 1, side := 'L', m := some 2, b := some 3, offset := none }

/-- The cell `cellCal` after `tare` on the samples `[4, 6]` (their mean is 5). -/
def cellCalTared : LoadCell :=
  { cellCal with offset := some 5 }

/-- A second sensor aimed at the same (1,L) slot as `cell1L`. -/
def cell1Ldup : LoadCell :=
  { data_pin := 11, clock_pin := 12, gain := 128, channel := ['A'],
    chamber := 1, side := 'L', m := none, b := none, offset := none }

/-- Coordinator input where the flag stays up, the environment read
succeeds and the mass read raises (an uncalibrated cell) on every
iteration. -/
def massFailInput : CoordInput :=
  { flag := fun _ => true, envRead := fun _ => some [(20, 1 / 2)],
    massRead := fun _ => none, startT := fun _ => 0, massT := fun _ => 0,
    stopT := fun _ => 1 }

/-- Coordinator input for a cycle that succeeds and finishes 3 time units
of work (start 0, stop 3). -/
def shortCycleInput : CoordInput :=
  { flag := fun _ => true, envRead := fun _ => some [(20, 1 / 2)],
    massRead := fun _ => some [42], startT := fun _ => 0, massT := fun _ => 2,
    stopT := fun _ => 3 }

/-- Coordinator input where the environment read raises on every
iteration. -/
def envFailInput : CoordInput :=
  { flag := fun _ => true, envRead := fun _ => none,
    massRead := fun _ => some [42], startT := fun _ => 0, massT := fun _ => 0,
    stopT := fun _ => 1 }

/-! ### Helper lemmas: `pyInsert`, `splitChar`, `List.set`/`getD` -/

theorem pyInsert_nil {α : Type} (i : Nat) (a : α) : pyInsert i a [] = [a] := by
  simp [pyInsert]

theorem pyInsert_zero {α : Type} (a : α) (l : List α) : pyInsert 0 a l = a :: l := by
  simp [pyInsert]

theorem pyInsert_one_singleton {α : Type} (a x : α) : pyInsert 1 a [x] = [x, a] := by
  simp [pyInsert]

theorem mem_pyInsert_self {α : Type} (i : Nat) (a : α) (l : List α) :
    a ∈ pyInsert i a l := by
  simp [pyInsert]

theorem mem_pyInsert_of_mem {α : Type} {x : α} {l : List α} (i : Nat) (a : α)
    (h : x ∈ l) : x ∈ pyInsert i a l := by
  unfold pyInsert
  rw [← List.take_append_drop i l] at h
  rcases List.mem_append.1 h with h1 | h2
  · exact List.mem_append.2 (Or.inl h1)
  · exact List.mem_append.2 (Or.inr (List.mem_cons_of_mem _ h2))

theorem splitChar_ne_nil (d : Char) : ∀ (l : List Char), splitChar d l ≠ []
  | [] => by simp [splitChar]
  | c :: cs => by
    by_cases h : c = d <;> simp [splitChar, h]

theorem splitChar_no_delim (d : Char) : ∀ (l : List Char), d ∉ l → splitChar d l = [l]
  | [], _ => rfl
  | c :: cs, h => by
    have hc : c ≠ d := fun e => h (e ▸ List.mem_cons_self _ _)
    have ih := splitChar_no_delim d cs fun m => h (List.mem_cons_of_mem _ m)
    simp [splitChar, ih, hc]

theorem splitChar_append (d : Char) : ∀ (l r : List Char), d ∉ l →
    splitChar d (l ++ d :: r) = l :: splitChar d r
  | [], r, _ => by
    simp [splitChar]
  | c :: cs, r, h => by
    have hc : c ≠ d := fun e => h (e ▸ List.mem_cons_self _ _)
    have ih := splitChar_append d cs r fun m => h (List.mem_cons_of_mem _ m)
    show splitChar d (c :: (cs ++ d :: r)) = (c :: cs) :: splitChar d r
    simp [splitChar, ih, hc]

theorem splitChar_flatten (d : Char) : ∀ (rs : List (List Char)),
    (∀ r ∈ rs, d ∉ r) →
    splitChar d ((rs.map fun r => r ++ [d]).flatten) = rs ++ [[]]
  | [], _ => rfl
  | r :: rs, h => by
    have h1 : d ∉ r := h r (List.mem_cons_self _ _)
    have ih := splitChar_flatten d rs fun s m => h s (List.mem_cons_of_mem _ m)
    rw [List.map_cons, List.flatten_cons, List.append_assoc, List.singleton_append,
      splitChar_append d r _ h1, ih, List.cons_append]

theorem getD_set_self {α : Type} : ∀ (l : List α) (i : Nat) (v d : α),
    i < l.length → (l.set i v).getD i d = v
  | _ :: _, 0, _, _, _ => rfl
  | _ :: t, i + 1, v, d, h => getD_set_self t i v d (Nat.lt_of_succ_lt_succ h)
  | [], _, _, _, h => absurd h (by simp)

theorem set_getD_self {α : Type} : ∀ (l : List α) (i : Nat) (d : α),
    i < l.length → l.set i (l.getD i d) = l
  | _ :: _, 0, _, _ => rfl
  | a :: t, i + 1, d, h => by
    have ih := set_getD_self t i d (Nat.lt_of_succ_lt_succ h)
    show a :: t.set i (t.getD i d) = a :: t
    rw [ih]
  | [], _, _, h => absurd h (by simp)

/-! ### Record printing and parsing -/

theorem cellOK_good {k : Int} {c : LoadCell} (hk : k ∈ ([1, 2, 3, 4] : List Int))
    (h : cellOK k c = true) : c.chamber = k ∧ CellGood c := by
  simp only [cellOK, Bool.and_eq_true, decide_eq_true_eq, Bool.or_eq_true,
    List.all_eq_true, Bool.not_eq_true', ne_eq] at h
  obtain ⟨⟨hch, hside⟩, hchan⟩ := h
  refine ⟨hch, hch ▸ hk, hside, fun d hd => ?_⟩
  have := hchan d hd
  simp only [Bool.and_eq_true, decide_eq_true_eq] at this
  exact this

theorem chamberOK_good {k : Int} (hk : k ∈ ([1, 2, 3, 4] : List Int)) :
    ∀ {l : List LoadCell}, chamberOK k l = true →
      ∀ c ∈ l, c.chamber = k ∧ CellGood c
  | [], _, c, hc => absurd hc (by simp)
  | [x], h, c, hc => by
    rw [List.mem_singleton.1 hc]
    exact cellOK_good hk (by simpa [chamberOK] using h)
  | [x, y], h, c, hc => by
    simp only [chamberOK, Bool.and_eq_true] at h
    rcases List.mem_cons.1 hc with rfl | hc2
    · exact cellOK_good hk h.1.1.1
    · rw [List.mem_singleton.1 hc2]
      exact cellOK_good hk h.1.1.2
  | x :: y :: z :: t, h, c, hc => by
    simp [chamberOK] at h

theorem printOptQ_clean {qc : QCodec} (hq : qc.Good) (o : Option ℚ) :
    ∀ d ∈ printOptQ qc o, d ≠ ',' ∧ d ≠ '|' := by
  cases o with
  | none =>
    intro d hd
    simp only [printOptQ, noneChars, List.mem_cons, List.not_mem_nil,
      or_false] at hd
    rcases hd with rfl | rfl | rfl | rfl <;> decide
  | some q => exact fun d hd => hq.clean q d hd

theorem idStr_clean {c : LoadCell} (hg : CellGood c) :
    ∀ d ∈ c.idStr, d ≠ ',' ∧ d ≠ '|' := by
  intro d hd
  simp only [LoadCell.idStr, List.mem_cons, List.mem_singleton, List.not_mem_nil,
    or_false] at hd
  have h14 : c.chamber = 1 ∨ c.chamber = 2 ∨ c.chamber = 3 ∨ c.chamber = 4 := by
    simpa using hg.1
  rcases hd with rfl | rfl
  · rcases h14 with h | h | h | h <;> rw [h] <;> decide
  · rcases hg.2.1 with h | h <;> rw [h] <;> decide

theorem parseOptQ_printOptQ {qc : QCodec} (hq : qc.Good) (o : Option ℚ) :
    parseOptQ qc (printOptQ qc o) = some o := by
  cases o with
  | none => simp [parseOptQ, printOptQ]
  | some q => simp [parseOptQ, printOptQ, hq.not_none q, hq.round q]

theorem splitChar_record {qc : QCodec} {ic : IntCodec} (hq : qc.Good)
    (hi : ic.Good) (c : LoadCell) (hg : CellGood c) :
    splitChar ',' (cellRecord qc ic c) =
      [ic.print c.data_pin, ic.print c.clock_pin, ic.print c.gain, c.channel,
        c.idStr, printOptQ qc c.m, printOptQ qc c.b] := by
  have h0 : ',' ∉ ic.print c.data_pin := fun hm => (hi.clean _ _ hm).1 rfl
  have h1 : ',' ∉ ic.print c.clock_pin := fun hm => (hi.clean _ _ hm).1 rfl
  have h2 : ',' ∉ ic.print c.gain := fun hm => (hi.clean _ _ hm).1 rfl
  have h3 : ',' ∉ c.channel := fun hm => (hg.2.2 _ hm).1 rfl
  have h4 : ',' ∉ c.idStr := fun hm => (idStr_clean hg _ hm).1 rfl
  have h5 : ',' ∉ printOptQ qc c.m := fun hm => (printOptQ_clean hq _ _ hm).1 rfl
  have h6 : ',' ∉ printOptQ qc c.b := fun hm => (printOptQ_clean hq _ _ hm).1 rfl
  rw [cellRecord]
  simp only [List.append_assoc, List.singleton_append, List.cons_append,
    List.nil_append]
  rw [splitChar_append _ _ _ h0, splitChar_append _ _ _ h1,
    splitChar_append _ _ _ h2, splitChar_append _ _ _ h3,
    splitChar_append _ _ _ h4, splitChar_append _ _ _ h5,
    splitChar_no_delim _ _ h6]

theorem loadStep_record {qc : QCodec} {ic : IntCodec} (hq : qc.Good)
    (hi : ic.Good) (arr : LoadCellArray) (c : LoadCell) (hg : CellGood c) :
    loadStep qc ic arr (cellRecord qc ic c) = some (loadPlace arr c) := by
  have hsplit := splitChar_record hq hi c hg
  have h14 : c.chamber = 1 ∨ c.chamber = 2 ∨ c.chamber = 3 ∨ c.chamber = 4 := by
    simpa using hg.1
  have hdigit : digitVal (Char.ofNat (48 + c.chamber.toNat)) = some c.chamber := by
    rcases h14 with h | h | h | h <;> rw [h] <;> decide
  have hup : c.side.toUpper = c.side := by
    rcases hg.2.1 with h | h <;> rw [h] <;> decide
  have hmemLR : c.side ∈ (['L', 'R'] : List Char) := by
    rcases hg.2.1 with h | h <;> simp [h]
  have hmk : mkLoadCell c.data_pin c.clock_pin c.gain c.channel c.chamber
      c.side c.m c.b = .ok (stripTare c) := by
    rw [mkLoadCell, if_pos hg.1, hup, if_pos hmemLR]
    rfl
  unfold loadStep
  rw [hsplit]
  simp [hi.round, hq.round, parseOptQ_printOptQ hq, LoadCell.idStr, hdigit,
    hmk, Except.toOption, loadPlace]

theorem pipe_not_mem_record {qc : QCodec} {ic : IntCodec} (hq : qc.Good)
    (hi : ic.Good) (c : LoadCell) (hg : CellGood c) :
    '|' ∉ cellRecord qc ic c := by
  have na : ∀ {A B : List Char}, '|' ∉ A → '|' ∉ B → '|' ∉ A ++ B :=
    fun hA hB hm => (List.mem_append.1 hm).elim hA hB
  have hcm : '|' ∉ ([','] : List Char) := by decide
  have ha : '|' ∉ ic.print c.data_pin := fun hm => (hi.clean _ _ hm).2 rfl
  have hb : '|' ∉ ic.print c.clock_pin := fun hm => (hi.clean _ _ hm).2 rfl
  have hc : '|' ∉ ic.print c.gain := fun hm => (hi.clean _ _ hm).2 rfl
  have hd : '|' ∉ c.channel := fun hm => (hg.2.2 _ hm).2 rfl
  have he : '|' ∉ c.idStr := fun hm => (idStr_clean hg _ hm).2 rfl
  have hf : '|' ∉ printOptQ qc c.m := fun hm => (printOptQ_clean hq _ _ hm).2 rfl
  have hh : '|' ∉ printOptQ qc c.b := fun hm => (printOptQ_clean hq _ _ hm).2 rfl
  exact na (na (na (na (na (na (na (na (na (na (na (na ha hcm) hb) hcm) hc)
    hcm) hd) hcm) he) hcm) hf) hcm) hh

theorem loadRecs_records {qc : QCodec} {ic : IntCodec} (hq : qc.Good)
    (hi : ic.Good) :
    ∀ (cs : List LoadCell) (arr : LoadCellArray), (∀ c ∈ cs, CellGood c) →
      loadRecs qc ic arr (cs.map (cellRecord qc ic)) =
        some (cs.foldl loadPlace arr)
  | [], arr, _ => rfl
  | c :: cs, arr, h => by
    have hg := h c (List.mem_cons_self _ _)
    have ih := loadRecs_records hq hi cs (loadPlace arr c)
      fun x hx => h x (List.mem_cons_of_mem _ hx)
    simp only [List.map_cons, loadRecs, loadStep_record hq hi arr c hg,
      List.foldl_cons]
    exact ih

theorem foldl_chamber {k : Int} {p : Nat} (hk : k ∈ ([1, 2, 3, 4] : List Int))
    (hp : (k - 1).toNat = p) (hp4 : p < 4) :
    ∀ (l : List LoadCell), chamberOK k l = true →
      ∀ (g : List (List LoadCell)) (n : Nat), g.length = 4 → g.getD p [] = [] →
        l.foldl loadPlace ⟨g, n⟩ = ⟨g.set p (l.map stripTare), n⟩
  | [], _, g, n, hlen, hge => by
    have hset : g.set p [] = g := by
      rw [← hge]; exact set_getD_self g p [] (hlen ▸ hp4)
    simp [hset]
  | [x], h, g, n, hlen, hge => by
    obtain ⟨hch, -⟩ := cellOK_good hk (show cellOK k x = true by simpa [chamberOK] using h)
    show loadPlace ⟨g, n⟩ x = _
    rw [loadPlace, placeCell, hch, hp]
    simp only []
    rw [hge, pyInsert_nil]
    rfl
  | [x, y], h, g, n, hlen, hge => by
    simp only [chamberOK, Bool.and_eq_true, decide_eq_true_eq] at h
    obtain ⟨⟨⟨hx, hy⟩, hxL⟩, hyR⟩ := h
    obtain ⟨hxch, -⟩ := cellOK_good hk hx
    obtain ⟨hych, -⟩ := cellOK_good hk hy
    have hsR : sideIdx 'R' = 1 := by decide
    have step1 : loadPlace ⟨g, n⟩ x = ⟨g.set p [stripTare x], n⟩ := by
      rw [loadPlace, placeCell, hxch, hp]
      simp only []
      rw [hge, pyInsert_nil]
    have step2 : loadPlace (⟨g.set p [stripTare x], n⟩ : LoadCellArray) y =
        ⟨g.set p [stripTare x, stripTare y], n⟩ := by
      rw [loadPlace, placeCell, hych, hp, hyR, hsR]
      simp only []
      rw [getD_set_self g p [stripTare x] [] (hlen ▸ hp4),
        pyInsert_one_singleton, List.set_set]
    show loadPlace (loadPlace ⟨g, n⟩ x) y = _
    rw [step1, step2]
    rfl
  | x :: y :: z :: t, h, g, n, hlen, hge => by
    simp [chamberOK] at h

/-- C2: for every well-formed array (sensors at their declared slots, any
mix of set/unset slope/intercept, delimiter-free channel strings) and any
printing of numbers with Python's guarantees (`QCodec.Good`/
`IntCodec.Good`), `save_array` followed by `load_array` on a fresh array
reproduces the array exactly: identical chamber/side placement and
identical `data_pin`, `clock_pin`, `gain`, `channel`, `m` (slope) and `b`
(intercept) for every sensor, and the same `num_cells`.  (`stripArray`
only clears the transient tare offsets, which are not persisted fields.) -/
theorem C2_serialize_deserialize_round_trip (qc : QCodec) (ic : IntCodec)
    (hq : qc.Good) (hi : ic.Good) (arr : LoadCellArray)
    (hw : wellFormed arr = true) :
    load_array qc ic emptyArray (save_array qc ic arr) =
      some (stripArray arr) := by
  obtain ⟨cells, n⟩ := arr
  rcases cells with - | ⟨l1, cells⟩
  · simp [wellFormed] at hw
  rcases cells with - | ⟨l2, cells⟩
  · simp [wellFormed] at hw
  rcases cells with - | ⟨l3, cells⟩
  · simp [wellFormed] at hw
  rcases cells with - | ⟨l4, cells⟩
  · simp [wellFormed] at hw
  rcases cells with - | ⟨l5, cells⟩
  case cons.cons.cons.cons.cons => simp [wellFormed] at hw
  simp only [wellFormed, Bool.and_eq_true, decide_eq_true_eq] at hw
  obtain ⟨⟨⟨⟨h1, h2⟩, h3⟩, h4⟩, hn⟩ := hw
  have hflat : (LoadCellArray.mk [l1, l2, l3, l4] n).cells.flatten =
      l1 ++ (l2 ++ (l3 ++ l4)) := by simp
  have hgood : ∀ c ∈ l1 ++ (l2 ++ (l3 ++ l4)), CellGood c := by
    intro c hc
    rcases List.mem_append.1 hc with hc | hc
    · exact (chamberOK_good (by decide) h1 c hc).2
    rcases List.mem_append.1 hc with hc | hc
    · exact (chamberOK_good (by decide) h2 c hc).2
    rcases List.mem_append.1 hc with hc | hc
    · exact (chamberOK_good (by decide) h3 c hc).2
    · exact (chamberOK_good (by decide) h4 c hc).2
  have hpipe : ∀ r ∈ (l1 ++ (l2 ++ (l3 ++ l4))).map (cellRecord qc ic),
      '|' ∉ r := by
    intro r hr
    obtain ⟨c, hc, rfl⟩ := List.mem_map.1 hr
    exact pipe_not_mem_record hq hi c (hgood c hc)
  have hsave : save_array qc ic ⟨[l1, l2, l3, l4], n⟩ =
      ((((l1 ++ (l2 ++ (l3 ++ l4))).map (cellRecord qc ic)).map
        fun r => r ++ ['|']).flatten) := by
    rw [save_array, hflat, List.map_map]
    rfl
  rw [hsave, load_array]
  simp only [splitChar_flatten '|' _ hpipe, List.dropLast_concat]
  rw [loadRecs_records hq hi _ _ hgood]
  have hL : ((l1 ++ (l2 ++ (l3 ++ l4))).map (cellRecord qc ic)).length = n := by
    simp [hn]
    omega
  rw [List.foldl_append, List.foldl_append, List.foldl_append]
  have e0 : ({ emptyArray with
      num_cells := ((l1 ++ (l2 ++ (l3 ++ l4))).map (cellRecord qc ic)).length } :
      LoadCellArray) = ⟨[[], [], [], []], n⟩ := by
    rw [hL]; rfl
  rw [e0]
  rw [foldl_chamber (k := 1) (p := 0) (by decide) (by decide) (by decide) l1 h1
    [[], [], [], []] n rfl rfl]
  have e1 : (([[], [], [], []] : List (List LoadCell)).set 0 (l1.map stripTare)) =
      [l1.map stripTare, [], [], []] := rfl
  rw [e1]
  rw [foldl_chamber (k := 2) (p := 1) (by decide) (by decide) (by decide) l2 h2
    [l1.map stripTare, [], [], []] n rfl rfl]
  have e2 : (([l1.map stripTare, [], [], []]).set 1 (l2.map stripTare)) =
      [l1.map stripTare, l2.map stripTare, [], []] := rfl
  rw [e2]
  rw [foldl_chamber (k := 3) (p := 2) (by decide) (by decide) (by decide) l3 h3
    [l1.map stripTare, l2.map stripTare, [], []] n rfl rfl]
  have e3 : (([l1.map stripTare, l2.map stripTare, [], []]).set 2
      (l3.map stripTare)) =
      [l1.map stripTare, l2.map stripTare, l3.map stripTare, []] := rfl
  rw [e3]
  rw [foldl_chamber (k := 4) (p := 3) (by decide) (by decide) (by decide) l4 h4
    [l1.map stripTare, l2.map stripTare, l3.map stripTare, []] n rfl rfl]
  rfl

/-! ### The tally codecs satisfy the printing contract -/

theorem unaryIntPrint_mem {n : Int} {d : Char} (h : d ∈ unaryIntPrint n) :
    d = '-' ∨ d = 'x' := by
  simp only [unaryIntPrint, List.mem_append] at h
  rcases h with h | h
  · by_cases hn : n < 0
    · simp only [if_pos hn, List.mem_singleton] at h
      exact Or.inl h
    · simp [if_neg hn] at h
  · exact Or.inr (List.eq_of_mem_replicate h)

theorem all_replicate_x (k : Nat) :
    (List.replicate k 'x').all (fun c => decide (c = 'x')) = true := by
  simp [List.all_eq_true, List.mem_replicate]

theorem unaryIntParse_print (n : Int) : unaryIntParse (unaryIntPrint n) = some n := by
  rcases n with k | k
  · have hnn : ¬ ((Int.ofNat k : Int) < 0) := by simp
    have habs : (Int.ofNat k).natAbs = k := rfl
    rw [unaryIntPrint, if_neg hnn, habs, List.nil_append]
    cases k with
    | zero => rfl
    | succ k =>
      rw [List.replicate_succ]
      rw [unaryIntParse]
      have hhd : (('x' : Char) :: List.replicate k 'x').headD 'x' = 'x' := rfl
      rw [hhd, if_neg (by decide)]
      have hall : (('x' : Char) :: List.replicate k 'x').all
          (fun c => decide (c = 'x')) = true := by
        simp [List.all_eq_true, List.mem_replicate]
      rw [if_pos hall]
      simp
  · have hneg : (Int.negSucc k : Int) < 0 := Int.negSucc_lt_zero k
    rw [unaryIntPrint, if_pos hneg, Int.natAbs_negSucc]
    rw [unaryIntParse]
    have hhd : (('-' : Char) :: List.replicate (k + 1) 'x').headD 'x' = '-' := rfl
    have htl : (('-' : Char) :: List.replicate (k + 1) 'x').tail =
      List.replicate (k + 1) 'x' := rfl
    rw [List.singleton_append, hhd, if_pos rfl, htl, if_pos (all_replicate_x _)]
    simp [Int.negSucc_eq]

theorem unaryIC_good : IntCodec.Good unaryIC := by
  constructor
  · exact unaryIntParse_print
  · intro n d hd
    rcases unaryIntPrint_mem hd with rfl | rfl <;> exact ⟨by decide, by decide⟩

theorem slash_not_mem_unaryIntPrint (n : Int) : '/' ∉ unaryIntPrint n := by
  intro h
  rcases unaryIntPrint_mem h with h | h <;> exact absurd h (by decide)

theorem unaryQParse_print (q : ℚ) : unaryQParse (unaryQPrint q) = some q := by
  have hsplit : splitChar '/' (unaryIntPrint q.num ++ '/' :: List.replicate q.den 'x') =
      [unaryIntPrint q.num, List.replicate q.den 'x'] := by
    rw [splitChar_append _ _ _ (slash_not_mem_unaryIntPrint q.num),
      splitChar_no_delim _ _ (fun h => absurd (List.eq_of_mem_replicate h) (by decide))]
  rw [unaryQPrint, unaryQParse, hsplit]
  simp only [unaryIntParse_print, all_replicate_x, if_pos, List.length_replicate]
  rw [Rat.num_div_den]

theorem unaryQC_good : QCodec.Good unaryQC := by
  refine ⟨unaryQParse_print, ?_, ?_⟩
  · intro q d hd
    simp only [unaryQC, unaryQPrint, List.mem_append, List.mem_cons] at hd
    rcases hd with h | h | h
    · rcases unaryIntPrint_mem h with rfl | rfl <;> exact ⟨by decide, by decide⟩
    · subst h; exact ⟨by decide, by decide⟩
    · rw [List.eq_of_mem_replicate h]; exact ⟨by decide, by decide⟩
  · intro q h
    have hs : '/' ∈ unaryQPrint q :=
      List.mem_append.2 (Or.inr (List.mem_cons_self _ _))
    rw [show unaryQC.print = unaryQPrint from rfl] at h
    rw [h] at hs
    exact absurd hs (by decide)

/-- Witness for C2: the round-trip theorem applied to the spec's example
array (sensors at (1,L), (1,R), (3,R) with slope/intercept variously set
and unset) and the tally codecs, with every hypothesis discharged. -/
theorem C2_witness :
    QCodec.Good unaryQC ∧ IntCodec.Good unaryIC ∧
      wellFormed exampleArray = true ∧
      load_array unaryQC unaryIC emptyArray
          (save_array unaryQC unaryIC exampleArray) =
        some (stripArray exampleArray) :=
  ⟨unaryQC_good, unaryIC_good, by decide,
    C2_serialize_deserialize_round_trip unaryQC unaryIC unaryQC_good
      unaryIC_good exampleArray (by decide)⟩

/-! ### C1, C3, C4, C10: the per-sensor measurement path -/

/-- C1: when `take_measurement` delivers the raw value `raw` for the batch
pulled in this call, `get_mass` fails with `CalibrationMissing` (the
`TypeError` of `None * float`) exactly when the slope `m` or the intercept
`b` is unset, and with both set it returns exactly `m * raw + b` for that
raw value. -/
theorem C1_get_mass_calibration (c : LoadCell) (batch : List ℚ) (raw : ℚ)
    (h : take_measurement batch = some raw) :
    (get_mass c batch = .error .calibrationMissing ↔ (c.m = none ∨ c.b = none)) ∧
    ∀ mv bv, c.m = some mv → c.b = some bv →
      get_mass c batch = .ok (mv * raw + bv) := by
  refine ⟨?_, ?_⟩
  · rw [get_mass, h]
    rcases c.m with - | mv <;> rcases c.b with - | bv <;> simp
  · intro mv bv hm hb
    rw [get_mass, h, hm, hb]

/-- Witness for C1: a calibrated cell (slope 2, intercept 3) on the batch
`[1,2,3]`, whose trimmed mean is 2, yields exactly `2*2+3`. -/
theorem C1_witness : get_mass cellCal [1, 2, 3] = .ok (2 * 2 + 3) :=
  (C1_get_mass_calibration cellCal [1, 2, 3] 2 (by with_unfolding_all decide)).2 2 3 rfl rfl

/-- C3 as stated is false on the code: the claim reads "every value
strictly below the 10th percentile or strictly above the 90th is excluded
before the mean of the remaining values is returned"
(`specTrimmedMean`), but the numpy mask uses strict comparisons and so
*also* drops the values equal to either percentile.  On the 10-sample
batch `[1,1,2,3,4,5,6,7,9,9]` the percentiles are 1 and 9, no value lies
strictly outside them, yet the code drops the two 1s and the two 9s and
returns 9/2 instead of the claimed 47/10. -/
theorem C3_counterexample :
    take_measurement [1, 1, 2, 3, 4, 5, 6, 7, 9, 9] ≠
      some (specTrimmedMean [1, 1, 2, 3, 4, 5, 6, 7, 9, 9]) := by
  with_unfolding_all decide

/-- C3 amended: every value at-or-below the 10th percentile or at-or-above
the 90th percentile of the batch is excluded (in particular every strictly
outside value is), and the mean of the strictly-interior samples is what
`take_measurement` returns, provided at least one sample is strictly
interior. -/
theorem C3_amended_trimming (readings : List ℚ) (hlen : 3 ≤ readings.length)
    (hne : trimmedBatch readings ≠ []) :
    take_measurement readings =
      some ((trimmedBatch readings).sum / ((trimmedBatch readings).length : ℚ)) ∧
    (∀ x ∈ readings,
      (x ≤ quantile readings (1 / 10) ∨ quantile readings (9 / 10) ≤ x) →
        x ∉ trimmedBatch readings) ∧
    ∀ x ∈ trimmedBatch readings,
      quantile readings (1 / 10) < x ∧ x < quantile readings (9 / 10) := by
  have hre : readings ≠ [] := by
    intro h
    exact hne (by simp [trimmedBatch, h])
  refine ⟨?_, ?_, ?_⟩
  · rw [take_measurement, if_neg (by simpa [List.isEmpty_iff] using hre)]
    simp only []
    rw [if_neg (by simpa [List.isEmpty_iff] using hne)]
  · intro x _ hout hmem
    have hf := (List.mem_filter.1 hmem).2
    simp only [Bool.and_eq_true, decide_eq_true_eq] at hf
    rcases hout with h | h
    · exact absurd hf.1 (not_lt.2 h)
    · exact absurd hf.2 (not_lt.2 h)
  · intro x hx
    have hf := (List.mem_filter.1 hx).2
    simp only [Bool.and_eq_true, decide_eq_true_eq] at hf
    exact hf

/-- Witness for C3 (amended): on `[1,2,3]` the trimmed batch is `[2]` and
the returned value is its mean. -/
theorem C3_witness :
    take_measurement [1, 2, 3] =
      some ((trimmedBatch [1, 2, 3]).sum / ((trimmedBatch [1, 2, 3]).length : ℚ)) :=
  (C3_amended_trimming [1, 2, 3] (by decide) (by with_unfolding_all decide)).1

/-- C4: the claim (backed by the spec) says a batch whose trimming leaves
zero samples must fall back to the untrimmed mean, but the code has no
fallback: on ten equal samples both percentiles equal the sample value,
the strict mask keeps nothing, and `sum(readings)/len(readings)` raises
`ZeroDivisionError` (modelled `none`) instead of returning the untrimmed
mean 5 (which is also what the claim-side `specTrimmedMean` computes
here). -/
theorem C4_degenerate_batch_crash :
    take_measurement (List.replicate 10 (5 : ℚ)) = none ∧
      specTrimmedMean (List.replicate 10 (5 : ℚ)) = 5 := by
  with_unfolding_all decide

/-- C10: `tare` writes only `offset` (to the untrimmed mean of its own
sample batch) and the measurement path never reads it: `get_mass` on the
tared cell equals `get_mass` on the untared cell for every batch, and
indeed for an arbitrary stored offset; `take_measurement` takes only the
batch, so the raw path cannot depend on the offset at all. -/
theorem C10_tare_frame (c c2 : LoadCell) (tb : List ℚ)
    (h : tare c tb = some c2) (batch : List ℚ) :
    c2.m = c.m ∧ c2.b = c.b ∧
      c2.offset = some (tb.sum / (tb.length : ℚ)) ∧
      get_mass c2 batch = get_mass c batch ∧
      ∀ o : Option ℚ, get_mass { c with offset := o } batch = get_mass c batch := by
  rw [tare] at h
  by_cases he : tb.isEmpty
  · rw [if_pos he] at h
    exact absurd h (by simp)
  · rw [if_neg he] at h
    have hc2 : c2 = { c with offset := some (tb.sum / (tb.length : ℚ)) } :=
      (Option.some.inj h).symm
    subst hc2
    exact ⟨rfl, rfl, rfl, rfl, fun o => rfl⟩

/-- Witness for C10: taring `cellCal` on `[4,6]` stores offset 5 and does
not change the measured mass on `[1,2,3]`. -/
theorem C10_witness :
    get_mass cellCalTared [1, 2, 3] = get_mass cellCal [1, 2, 3] :=
  (C10_tare_frame cellCal cellCalTared [4, 6] (by with_unfolding_all decide) [1, 2, 3]).2.2.2.1

/-! ### C5: the aggregate measurement -/

theorem get_mass_ok {c : LoadCell} {batch : List ℚ} {raw mv bv : ℚ}
    (h : take_measurement batch = some raw) (hm : c.m = some mv)
    (hb : c.b = some bv) : get_mass c batch = .ok (mv * raw + bv) := by
  rw [get_mass, h, hm, hb]

theorem get_mass_missing {c : LoadCell} {batch : List ℚ} {raw : ℚ}
    (h : take_measurement batch = some raw) (hmb : c.m = none ∨ c.b = none) :
    get_mass c batch = .error .calibrationMissing := by
  rw [get_mass, h]
  rcases hmb with hmb | hmb
  · rw [hmb]
  · rcases hm : c.m with - | mv
    · rfl
    · rw [hmb]

theorem massList_ok (env : LoadCell → List ℚ) (f : LoadCell → ℚ) :
    ∀ cs : List LoadCell, (∀ c ∈ cs, get_mass c (env c) = .ok (f c)) →
      massList env cs = .ok (cs.map f)
  | [], _ => rfl
  | c :: cs, h => by
    rw [massList, h c (List.mem_cons_self _ _),
      massList_ok env f cs fun x hx => h x (List.mem_cons_of_mem _ hx)]
    rfl

theorem massList_first_error (env : LoadCell → List ℚ) :
    ∀ cs : List LoadCell,
      (∀ c ∈ cs, get_mass c (env c) = .error .calibrationMissing ∨
        ∃ v, get_mass c (env c) = .ok v) →
      (∃ c ∈ cs, get_mass c (env c) = .error .calibrationMissing) →
      massList env cs = .error .calibrationMissing
  | [], _, hex => by simp at hex
  | c :: cs, hall, hex => by
    rcases hall c (List.mem_cons_self _ _) with hc | ⟨v, hv⟩
    · rw [massList, hc]
    · have hex2 : ∃ x ∈ cs, get_mass x (env x) = .error .calibrationMissing := by
        rcases hex with ⟨x, hx, he⟩
        rcases List.mem_cons.1 hx with rfl | hx2
        · exact absurd (hv.symm.trans he) (by simp)
        · exact ⟨x, hx2, he⟩
      rw [massList, hv,
        massList_first_error env cs
          (fun x hx => hall x (List.mem_cons_of_mem _ hx)) hex2]

theorem chamberOK_before {k : Int} (hk : k ∈ ([1, 2, 3, 4] : List Int)) :
    ∀ {l : List LoadCell}, chamberOK k l = true → l.Pairwise cellBefore
  | [], _ => List.Pairwise.nil
  | [x], _ => by simp
  | [x, y], h => by
    simp only [chamberOK, Bool.and_eq_true, decide_eq_true_eq] at h
    obtain ⟨⟨⟨hx, hy⟩, hxL⟩, hyR⟩ := h
    have hxc := (cellOK_good hk hx).1
    have hyc := (cellOK_good hk hy).1
    refine List.Pairwise.cons ?_ (by simp)
    intro z hz
    rw [List.mem_singleton.1 hz]
    exact Or.inr ⟨hxc.trans hyc.symm, by rw [hxL, hyR]; decide⟩
  | x :: y :: z :: t, h => by simp [chamberOK] at h

theorem wellFormed_pairwise {arr : LoadCellArray} (hw : wellFormed arr = true) :
    arr.cells.flatten.Pairwise cellBefore := by
  obtain ⟨cells, n⟩ := arr
  rcases cells with - | ⟨l1, cells⟩
  · simp [wellFormed] at hw
  rcases cells with - | ⟨l2, cells⟩
  · simp [wellFormed] at hw
  rcases cells with - | ⟨l3, cells⟩
  · simp [wellFormed] at hw
  rcases cells with - | ⟨l4, cells⟩
  · simp [wellFormed] at hw
  rcases cells with - | ⟨l5, cells⟩
  case cons.cons.cons.cons.cons => simp [wellFormed] at hw
  simp only [wellFormed, Bool.and_eq_true, decide_eq_true_eq] at hw
  obtain ⟨⟨⟨⟨h1, h2⟩, h3⟩, h4⟩, -⟩ := hw
  have m1 := fun c hc => (chamberOK_good (k := 1) (by decide) h1 c hc).1
  have m2 := fun c hc => (chamberOK_good (k := 2) (by decide) h2 c hc).1
  have m3 := fun c hc => (chamberOK_good (k := 3) (by decide) h3 c hc).1
  have m4 := fun c hc => (chamberOK_good (k := 4) (by decide) h4 c hc).1
  have p1 := chamberOK_before (by decide) h1
  have p2 := chamberOK_before (by decide) h2
  have p3 := chamberOK_before (by decide) h3
  have p4 := chamberOK_before (by decide) h4
  have hflat : (LoadCellArray.mk [l1, l2, l3, l4] n).cells.flatten =
      l1 ++ (l2 ++ (l3 ++ l4)) := by simp
  rw [hflat]
  have cross : ∀ (a b : LoadCell) (ka kb : Int), a.chamber = ka →
      b.chamber = kb → ka < kb → cellBefore a b := by
    intro a b ka kb ha hb hlt
    exact Or.inl (by rw [ha, hb]; exact hlt)
  rw [List.pairwise_append]
  refine ⟨p1, ?_, ?_⟩
  · rw [List.pairwise_append]
    refine ⟨p2, ?_, ?_⟩
    · rw [List.pairwise_append]
      refine ⟨p3, p4, ?_⟩
      · intro a ha b hb
        exact cross a b 3 4 (m3 a ha) (m4 b hb) (by decide)
    · intro a ha b hb
      rcases List.mem_append.1 hb with hb | hb
      · exact cross a b 2 3 (m2 a ha) (m3 b hb) (by decide)
      · exact cross a b 2 4 (m2 a ha) (m4 b hb) (by decide)
  · intro a ha b hb
    rcases List.mem_append.1 hb with hb | hb
    · exact cross a b 1 2 (m1 a ha) (m2 b hb) (by decide)
    rcases List.mem_append.1 hb with hb | hb
    · exact cross a b 1 3 (m1 a ha) (m3 b hb) (by decide)
    · exact cross a b 1 4 (m1 a ha) (m4 b hb) (by decide)

/-- C5: when every populated slot's measurement succeeds, the aggregate
`take_measurement` of a well-formed array returns exactly one mass per
populated slot, in the flattened grid order — which is strictly ascending
in (chamber, side) with L before R (`cellBefore`) — and if any populated
slot lacks a calibration coefficient the whole operation fails with
`CalibrationMissing` and returns no partial vector. -/
theorem C5_array_measurement (env : LoadCell → List ℚ) (arr : LoadCellArray)
    (raws : LoadCell → ℚ) (hw : wellFormed arr = true)
    (hms : ∀ c ∈ arr.cells.flatten, take_measurement (env c) = some (raws c)) :
    ((∀ c ∈ arr.cells.flatten, c.m.isSome ∧ c.b.isSome) →
      array_take_measurement env arr =
        .ok (arr.cells.flatten.map fun c => c.m.getD 0 * raws c + c.b.getD 0)) ∧
    ((∃ c ∈ arr.cells.flatten, c.m = none ∨ c.b = none) →
      array_take_measurement env arr = .error .calibrationMissing) ∧
    arr.cells.flatten.Pairwise cellBefore := by
  refine ⟨?_, ?_, wellFormed_pairwise hw⟩
  · intro hcal
    rw [array_take_measurement]
    apply massList_ok
    intro c hc
    obtain ⟨hm, hb⟩ := hcal c hc
    obtain ⟨mv, hmv⟩ := Option.isSome_iff_exists.1 hm
    obtain ⟨bv, hbv⟩ := Option.isSome_iff_exists.1 hb
    rw [get_mass_ok (hms c hc) hmv hbv, hmv, hbv]
    rfl
  · intro hex
    rw [array_take_measurement]
    apply massList_first_error
    · intro c hc
      rcases hm : c.m with - | mv
      · exact Or.inl (get_mass_missing (hms c hc) (Or.inl hm))
      rcases hb : c.b with - | bv
      · exact Or.inl (get_mass_missing (hms c hc) (Or.inr hb))
      · exact Or.inr ⟨mv * raws c + bv, get_mass_ok (hms c hc) hm hb⟩
    · obtain ⟨c, hc, hmb⟩ := hex
      exact ⟨c, hc, get_mass_missing (hms c hc) hmb⟩

/-- Witness for C5: on the example array, cell (1,R) is uncalibrated, so
the aggregate measurement fails with `CalibrationMissing` even though
every raw measurement succeeds. -/
theorem C5_witness :
    array_take_measurement (fun _ => [1, 2, 3]) exampleArray =
      .error .calibrationMissing :=
  (C5_array_measurement (fun _ => [1, 2, 3]) exampleArray (fun _ => 2)
    (by decide) (by with_unfolding_all decide)).2.1
    ⟨cell1R, by decide, Or.inl rfl⟩

/-! ### C6: topology validation and slot occupancy -/

/-- C6 as stated is false on the code: inserting a second sensor at the
already-occupied slot (1,L) does not fail with any `SlotOccupied` error —
there is no occupancy check anywhere — and it does not leave the array
unchanged: the duplicate is placed *in front of* the existing sensor in
chamber 1's list and `num_cells` grows to 2. -/
theorem C6_counterexample :
    arrayInit [cell1L, cell1Ldup] =
      { cells := [[cell1Ldup, cell1L], [], [], []], num_cells := 2 } := rfl

/-- C6 amended: constructing a sensor with `chamber ∉ {1,2,3,4}` or a side
whose upper-casing is not `L`/`R` fails with `InvalidTopology` (the
constructor's `ValueError`s), so no such sensor can reach an array;
inserting at an already-occupied slot, however, does not fail: the
insertion always succeeds, keeps every sensor already in the slot's
chamber list, adds the new one, and increments `num_cells`. -/
theorem C6_amended (dp cp g : Int) (ch : List Char) (chamber : Int)
    (side : Char) (mv bv : Option ℚ) (arr : LoadCellArray) (c : LoadCell) :
    (chamber ∉ ([1, 2, 3, 4] : List Int) →
      mkLoadCell dp cp g ch chamber side mv bv = .error .invalidChamber) ∧
    (chamber ∈ ([1, 2, 3, 4] : List Int) →
      side.toUpper ∉ (['L', 'R'] : List Char) →
      mkLoadCell dp cp g ch chamber side mv bv = .error .invalidSide) ∧
    (insertCell arr c).num_cells = arr.num_cells + 1 ∧
    (chIdx c < arr.cells.length →
      c ∈ (insertCell arr c).cells.getD (chIdx c) [] ∧
      ∀ x ∈ arr.cells.getD (chIdx c) [],
        x ∈ (insertCell arr c).cells.getD (chIdx c) []) := by
  refine ⟨?_, ?_, rfl, ?_⟩
  · intro h
    rw [mkLoadCell, if_neg h]
  · intro h1 h2
    rw [mkLoadCell, if_pos h1, if_neg h2]
  · intro hlt
    have hset : (insertCell arr c).cells.getD (chIdx c) [] =
        pyInsert (sideIdx c.side) c (arr.cells.getD (chIdx c) []) := by
      rw [insertCell, placeCell]
      exact getD_set_self _ _ _ _ hlt
    rw [hset]
    exact ⟨mem_pyInsert_self _ _ _, fun x hx => mem_pyInsert_of_mem _ _ hx⟩

/-- Witness for C6 (amended): chamber 5 and side `'Q'` are rejected with
the constructor's errors, and inserting `cell1Ldup` into the slot already
holding `cell1L` keeps both sensors. -/
theorem C6_witness :
    mkLoadCell 5 6 128 ['A'] 5 'L' none none = .error .invalidChamber ∧
    mkLoadCell 5 6 128 ['A'] 1 'Q' none none = .error .invalidSide ∧
    cell1Ldup ∈ (insertCell (arrayInit [cell1L]) cell1Ldup).cells.getD
      (chIdx cell1Ldup) [] ∧
    cell1L ∈ (insertCell (arrayInit [cell1L]) cell1Ldup).cells.getD
      (chIdx cell1Ldup) [] := by
  refine ⟨(C6_amended 5 6 128 ['A'] 5 'L' none none emptyArray cell1L).1
      (by decide),
    (C6_amended 5 6 128 ['A'] 1 'Q' none none emptyArray cell1L).2.1
      (by decide) (by decide), ?_, ?_⟩
  · exact ((C6_amended 5 6 128 ['A'] 1 'L' none none (arrayInit [cell1L])
      cell1Ldup).2.2.2 (by decide)).1
  · exact ((C6_amended 5 6 128 ['A'] 1 'L' none none (arrayInit [cell1L])
      cell1Ldup).2.2.2 (by decide)).2 cell1L (by with_unfolding_all decide)

/-! ### C7, C8, C9: the coordinator cycle -/

/-- C7 as stated is false on the code: the mass read sits *outside* the
`try`, so a cycle whose environment read succeeds and whose mass read
raises publishes the environment result, never publishes the mass result,
and kills the loop — a half-published cycle that is not the step-2
environment-retry case. -/
theorem C7_counterexample :
    (coordCycle massFailInput 10 0).2 ≠ IterOut.retry ∧
    hasEnvPub (coordCycle massFailInput 10 0).1 = true ∧
    hasMassPub (coordCycle massFailInput 10 0).1 = false := by
  with_unfolding_all decide

/-- C7 amended: a completing cycle publishes both results; a halted or
retried (environment-read failure) cycle publishes neither; and in the one
remaining case — an uncaught mass-read failure, which crashes the loop —
the environment result alone is published.  Equivalently, mass is
published iff the cycle completes, and environment is published iff the
cycle completes or crashes. -/
theorem C7_amended_publish_pairing (inp : CoordInput) (interval : ℚ) (n : Nat) :
    hasEnvPub (coordCycle inp interval n).1 =
      decide ((coordCycle inp interval n).2 = .complete ∨
        (coordCycle inp interval n).2 = .crash) ∧
    hasMassPub (coordCycle inp interval n).1 =
      decide ((coordCycle inp interval n).2 = .complete) := by
  by_cases hf : inp.flag n = true
  · rcases he : inp.envRead n with - | e
    · have hcy : coordCycle inp interval n = ([.reportErr], .retry) := by
        rw [coordCycle, he]
        simp [hf]
      rw [hcy]
      simp [hasEnvPub, hasMassPub]
    · rcases hm : inp.massRead n with - | ms
      · have hcy : coordCycle inp interval n = ([.envPub e], .crash) := by
          rw [coordCycle, he, hm]
          simp [hf]
        rw [hcy]
        simp [hasEnvPub, hasMassPub]
      · by_cases hel : inp.stopT n - inp.startT n < interval
        · have hcy : coordCycle inp interval n =
              ([.envPub e, .massPub (inp.massT n) ms,
                .sleep (interval - (inp.stopT n - inp.startT n)), .pulse],
                .complete) := by
            rw [coordCycle, he, hm]
            simp [hf, hel]
          rw [hcy]
          simp [hasEnvPub, hasMassPub]
        · have hcy : coordCycle inp interval n =
              ([.envPub e, .massPub (inp.massT n) ms, .pulse], .complete) := by
            rw [coordCycle, he, hm]
            simp [hf, hel]
          rw [hcy]
          simp [hasEnvPub, hasMassPub]
  · have hcy : coordCycle inp interval n = ([], .halt) := by
      rw [coordCycle]
      simp [hf]
    rw [hcy]
    simp [hasEnvPub, hasMassPub]

/-- C8: every suspension a cycle performs lasts exactly
`interval - elapsed` and is strictly positive — so an overrunning cycle
(`elapsed ≥ interval`) never sleeps (zero additional delay, never a
negative sleep) — and a completing cycle that ran short does suspend for
exactly the remainder. -/
theorem C8_pacing (inp : CoordInput) (interval : ℚ) (n : Nat) :
    (∀ d, CoordEv.sleep d ∈ (coordCycle inp interval n).1 →
      d = interval - (inp.stopT n - inp.startT n) ∧ 0 < d ∧
        inp.stopT n - inp.startT n < interval) ∧
    ((coordCycle inp interval n).2 = .complete →
      inp.stopT n - inp.startT n < interval →
      CoordEv.sleep (interval - (inp.stopT n - inp.startT n)) ∈
        (coordCycle inp interval n).1) := by
  by_cases hf : inp.flag n = true
  · rcases he : inp.envRead n with - | e
    · have hcy : coordCycle inp interval n = ([.reportErr], .retry) := by
        rw [coordCycle, he]
        simp [hf]
      rw [hcy]
      constructor
      · intro d hd
        simp at hd
      · intro h
        simp at h
    · rcases hm : inp.massRead n with - | ms
      · have hcy : coordCycle inp interval n = ([.envPub e], .crash) := by
          rw [coordCycle, he, hm]
          simp [hf]
        rw [hcy]
        constructor
        · intro d hd
          simp at hd
        · intro h
          simp at h
      · by_cases hel : inp.stopT n - inp.startT n < interval
        · have hcy : coordCycle inp interval n =
              ([.envPub e, .massPub (inp.massT n) ms,
                .sleep (interval - (inp.stopT n - inp.startT n)), .pulse],
                .complete) := by
            rw [coordCycle, he, hm]
            simp [hf, hel]
          rw [hcy]
          constructor
          · intro d hd
            simp only [List.mem_cons, List.not_mem_nil, or_false] at hd
            rcases hd with hd | hd | hd | hd
            · cases hd
            · cases hd
            · have hde := CoordEv.sleep.inj hd
              refine ⟨hde, ?_, hel⟩
              rw [hde]
              linarith
            · cases hd
          · intro _ _
            simp
        · have hcy : coordCycle inp interval n =
              ([.envPub e, .massPub (inp.massT n) ms, .pulse], .complete) := by
            rw [coordCycle, he, hm]
            simp [hf, hel]
          rw [hcy]
          constructor
          · intro d hd
            simp at hd
          · intro _ h
            exact absurd h hel
  · have hcy : coordCycle inp interval n = ([], .halt) := by
      rw [coordCycle]
      simp [hf]
    rw [hcy]
    constructor
    · intro d hd
      simp at hd
    · intro h
      simp at h

/-- Witness for C8: a cycle with 3 time units of work against a
10-unit interval completes and suspends for the exact remainder. -/
theorem C8_witness :
    CoordEv.sleep ((10 : ℚ) - ((3 : ℚ) - (0 : ℚ))) ∈
      (coordCycle shortCycleInput 10 0).1 :=
  (C8_pacing shortCycleInput 10 0).2 (by with_unfolding_all decide)
    (by with_unfolding_all decide)

/-- C9 as stated is false on the code: the claim (and spec step 2) say a
failed environment read is retried *after a short fallback delay*, but the
handler is `print(e); continue` — the retried iteration contains no
suspension at all. -/
theorem C9_counterexample :
    (coordCycle envFailInput 10 0).2 = IterOut.retry ∧
    hasSleep (coordCycle envFailInput 10 0).1 = false := by
  with_unfolding_all decide

/-- C9 amended: when the environment read raises while the flag is up, the
failure is reported and nothing else happens in that iteration — no
environment or mass result is published and no delay is taken — and the
loop immediately proceeds to retry: the remaining trace is exactly the
trace of the loop restarted at the next iteration index. -/
theorem C9_amended_env_retry (inp : CoordInput) (interval : ℚ) (n fuel : Nat)
    (hf : inp.flag n = true) (he : inp.envRead n = none) :
    coordCycle inp interval n = ([.reportErr], .retry) ∧
    coordRun inp interval (fuel + 1) n =
      (CoordEv.reportErr :: (coordRun inp interval fuel (n + 1)).1,
        (coordRun inp interval fuel (n + 1)).2) := by
  have hc : coordCycle inp interval n = ([.reportErr], .retry) := by
    rw [coordCycle, he]
    simp [hf]
  refine ⟨hc, ?_⟩
  rw [coordRun, hc]
  rcases hrun : coordRun inp interval fuel (n + 1) with ⟨evs2, ex⟩
  rfl

/-- Witness for C9 (amended): with the failing-environment input, the
first iteration reports and retries, and the one-extra-fuel run prefixes
exactly one report onto the continuation. -/
theorem C9_witness :
    coordCycle envFailInput 10 0 = ([.reportErr], .retry) ∧
    coordRun envFailInput 10 1 0 =
      (CoordEv.reportErr :: (coordRun envFailInput 10 0 1).1,
        (coordRun envFailInput 10 0 1).2) :=
  C9_amended_env_retry envFailInput 10 0 0 rfl rfl

end DesiGators
